import Mathlib

/-!
Verification of the bead core (content-addressed artifact store) against its
specification.  The Rust source under `src/rust/src/` is shallowly embedded:
strings are `String` (byte indexing is modelled by character indexing, faithful
for the ASCII data handled here), filesystem paths are explicit component
lists, the filesystem is an explicit value threaded through operations, and
fallible operations return `Except BeadError`.  I/O primitives are assumed to
succeed unless the source inspects their failure; symlinks are not modelled
(path resolution is purely lexical, as `fs::canonicalize` behaves on
symlink-free trees).
-/

set_option autoImplicit false

deriving instance DecidableEq for Except

namespace Bead

/-- Error kinds mirroring `BeadError` in `src/rust/src/error.rs`.  The wrapped
I/O, JSON and ZIP payloads are reduced to message strings. -/
inductive BeadError where
  | InvalidWorkspace (msg : String)
  | BoxNotFound (msg : String)
  | BeadNotFound (msg : String)
  | InvalidArchive (msg : String)
  | AlreadyExists (msg : String)
  | InvalidBeadName (msg : String)
  | InvalidInput (msg : String)
  | IoError (msg : String)
  | JsonError (msg : String)
  | ZipError (msg : String)
  deriving Repr, DecidableEq

/-- The "not found" error kinds of `BeadError` (as opposed to "exists",
"invalid", "traversal detected" and the wrapped error kinds). -/
def BeadError.isNotFoundKind : BeadError → Bool
  | .BeadNotFound _ => true
  | .BoxNotFound _ => true
  | _ => false

/-- Semantics of Rust `str::contains` with a string pattern: substring
(infix) containment. -/
def rustContainsStr (hay pat : String) : Bool :=
  decide (pat.data <:+: hay.data)

/-- Semantics of Rust `str::contains` with a `char` pattern. -/
def rustContainsChar (hay : String) (c : Char) : Bool :=
  decide (c ∈ hay.data)

/-- Validated bead-name wrapper, `BeadName` in `src/rust/src/core/meta.rs`. -/
structure BeadName where
  str : String
  deriving Repr, DecidableEq

/-- `BeadName::is_valid` from `src/rust/src/core/meta.rs`. -/
def BeadName.is_valid (name : String) : Bool :=
  !name.isEmpty && name != "." && name != ".." &&
    !rustContainsChar name '/' && !rustContainsStr name "__"

/-- `BeadName::new` from `src/rust/src/core/meta.rs`. -/
def BeadName.new (name : String) : Except BeadError BeadName :=
  if BeadName.is_valid name then .ok ⟨name⟩ else .error (.InvalidBeadName name)

/-- Validated input-name wrapper, `InputName` in `src/rust/src/core/meta.rs`. -/
structure InputName where
  str : String
  deriving Repr, DecidableEq

/-- `InputName::new` from `src/rust/src/core/meta.rs`: it delegates to
`BeadName::is_valid` and adds no further checks. -/
def InputName.new (name : String) : Except BeadError InputName :=
  if BeadName.is_valid name then .ok ⟨name⟩
  else .error (.InvalidInput ("Invalid input name: " ++ name))

/-- `Workspace::is_valid_input_name` from `src/rust/src/core/workspace.rs`
(the separate, stricter validator used by `Workspace::add_input`). -/
def Workspace.is_valid_input_name (name : String) : Bool :=
  !name.isEmpty && name != "." && name != ".." &&
    !rustContainsChar name '/' && !rustContainsChar name '\\' &&
    !name.startsWith "../"

/-- Split a character list at every occurrence of a separator character
(the semantics of Rust `str::split(sep)`): `"a/b"` gives `["a", "b"]`,
the empty string gives `[""]`. -/
def splitSep (sep : Char) : List Char → List (List Char)
  | [] => [[]]
  | c :: cs =>
    match splitSep sep cs with
    | [] => [[]]
    | h :: t => if c = sep then [] :: h :: t else (c :: h) :: t

/-- A `..` path segment under the `/` separator convention: some
`/`-separated component of the string is exactly `..`. -/
def hasDotDotSegment (s : String) : Bool :=
  (splitSep '/' s.data).any (· = ['.', '.'])

/-- A `..` path segment under either separator convention (`/` or `\`). -/
def hasDotDotSegmentEitherSep (s : String) : Bool :=
  ((splitSep '/' s.data).flatMap (splitSep '\\')).any (· = ['.', '.'])

theorem isOk_iff_exists {α β : Type} (r : Except α β) :
    r.isOk = true ↔ ∃ b, r = .ok b := by
  cases r <;> simp [Except.isOk, Except.toBool]

theorem rustContainsStr_iff (hay pat : String) :
    rustContainsStr hay pat = true ↔ ∃ l r, hay.data = l ++ pat.data ++ r := by
  unfold rustContainsStr
  rw [decide_eq_true_iff]
  constructor
  · rintro ⟨l, r, h⟩
    exact ⟨l, r, h.symm⟩
  · rintro ⟨l, r, h⟩
    exact ⟨l, r, h.symm⟩

theorem rustContainsChar_iff (hay : String) (c : Char) :
    rustContainsChar hay c = true ↔ c ∈ hay.data := by
  unfold rustContainsChar
  exact decide_eq_true_iff

theorem string_eq_iff_data_eq (s t : String) : s = t ↔ s.data = t.data := by
  constructor
  · intro h; rw [h]
  · intro h
    cases s with
    | mk d1 =>
      cases t with
      | mk d2 => simp only at h; rw [h]

theorem beadName_is_valid_iff (s : String) :
    BeadName.is_valid s = true ↔
      (s.data ≠ [] ∧ s ≠ "." ∧ s ≠ ".." ∧ '/' ∉ s.data ∧
        ¬ ∃ l r, s.data = l ++ '_' :: '_' :: r) := by
  unfold BeadName.is_valid
  simp only [Bool.and_eq_true, Bool.not_eq_true']
  constructor
  · rintro ⟨⟨⟨⟨h1, h2⟩, h3⟩, h4⟩, h5⟩
    refine ⟨?_, ?_, ?_, ?_, ?_⟩
    · intro hd
      have : s = "" := by rw [string_eq_iff_data_eq]; simpa using hd
      rw [this] at h1
      simp [String.isEmpty] at h1
    · intro h; rw [h] at h2; simp at h2
    · intro h; rw [h] at h3; simp at h3
    · intro hmem
      have := (rustContainsChar_iff s '/').mpr hmem
      rw [this] at h4; cases h4
    · rintro ⟨l, r, h⟩
      have : rustContainsStr s "__" = true := by
        rw [rustContainsStr_iff]
        exact ⟨l, r, by simpa using h⟩
      rw [this] at h5; cases h5
  · rintro ⟨h1, h2, h3, h4, h5⟩
    refine ⟨⟨⟨⟨?_, ?_⟩, ?_⟩, ?_⟩, ?_⟩
    · rcases hempty : s.isEmpty with _ | _
      · rfl
      · exfalso
        apply h1
        have : s = "" := (String.isEmpty_iff s).mp hempty
        rw [this]
    · simp only [bne_iff_ne, ne_eq]
      exact h2
    · simp only [bne_iff_ne, ne_eq]
      exact h3
    · rcases hc : rustContainsChar s '/' with _ | _
      · rfl
      · exact absurd ((rustContainsChar_iff s '/').mp hc) h4
    · rcases hc : rustContainsStr s "__" with _ | _
      · rfl
      · obtain ⟨l, r, h⟩ := (rustContainsStr_iff s "__").mp hc
        exact absurd ⟨l, r, by simpa using h⟩ h5

/-- C8: `BeadName::new` accepts a string iff it is a valid bead name:
non-empty, not `.` or `..`, containing no `/` and no `__` substring. -/
theorem c8_beadname_new_iff (s : String) :
    (BeadName.new s).isOk = true ↔
      (s.data ≠ [] ∧ s ≠ "." ∧ s ≠ ".." ∧ '/' ∉ s.data ∧
        ¬ ∃ l r, s.data = l ++ '_' :: '_' :: r) := by
  rw [← beadName_is_valid_iff]
  unfold BeadName.new
  rcases h : BeadName.is_valid s with _ | _ <;>
    simp [h, Except.isOk, Except.toBool]

/-- C5 counterexample: `InputName::new` accepts `a\..\b`, a string that
contains the `\` path separator and a `..` segment under the `\` convention,
which the claim says must be rejected. -/
theorem c5_inputname_backslash_counterexample :
    (InputName.new "a\\..\\b").isOk = true ∧
      rustContainsChar "a\\..\\b" '\\' = true ∧
      hasDotDotSegmentEitherSep "a\\..\\b" = true := by
  refine ⟨?_, by decide, by decide⟩
  decide

/-- C5 (amended): `InputName::new` applies exactly BeadName's character
rules — non-empty, not `.`/`..`, no `/`, no `__` substring — and adds no
rejection of `\` separators or embedded `..` segments. -/
theorem c5_inputname_new_iff (s : String) :
    (InputName.new s).isOk = true ↔
      (s.data ≠ [] ∧ s ≠ "." ∧ s ≠ ".." ∧ '/' ∉ s.data ∧
        ¬ ∃ l r, s.data = l ++ '_' :: '_' :: r) := by
  rw [← beadName_is_valid_iff]
  unfold InputName.new
  rcases h : BeadName.is_valid s with _ | _ <;>
    simp [h, Except.isOk, Except.toBool]

/-- Opaque content-id wrapper, `ContentId` in `src/rust/src/core/meta.rs`. -/
structure ContentId where
  str : String
  deriving Repr, DecidableEq

/-- `InputSpec` from `src/rust/src/core/meta.rs`: a pinned reference to one
upstream artifact. -/
structure InputSpec where
  kind : String
  content_id : String
  freeze_time : String
  deriving Repr, DecidableEq

/-- `BeadMeta` from `src/rust/src/core/meta.rs`.  The `HashMap<String,
InputSpec>` of inputs is modelled as an association list (first binding
wins on lookup, like the map). -/
structure BeadMeta where
  meta_version : String
  kind : String
  inputs : List (String × InputSpec)
  freeze_time : Option String
  freeze_name : Option String
  deriving Repr, DecidableEq

/-- `META_VERSION` from `src/rust/src/core/meta.rs`. -/
def META_VERSION : String := "aaa947a6-1f7a-11e6-ba3a-0021cc73492e"

/-- `BeadMeta::new_workspace` from `src/rust/src/core/meta.rs`. -/
def BeadMeta.new_workspace (kind : String) : BeadMeta :=
  ⟨META_VERSION, kind, [], none, none⟩

/-- `BeadMeta::new_frozen` from `src/rust/src/core/meta.rs`. -/
def BeadMeta.new_frozen (kind : String) (name : BeadName) (freeze_time : String) : BeadMeta :=
  ⟨META_VERSION, kind, [], some freeze_time, some name.str⟩

/-! ### Timestamp parsing (`src/rust/src/tech/timestamp.rs`)

A `DateTime<Utc>` is embedded as the number of microseconds since the Unix
epoch (an `Int`); `DateTime` ordering is integer ordering.  Rust byte
indexing into the timestamp string is modelled by character indexing, which
is faithful for ASCII input (non-ASCII input makes the Rust code panic on a
char boundary, outside the embedded failure model). -/

/-- `ts[a..b]`: the half-open character slice of a Rust string. -/
def slice (l : List Char) (a b : Nat) : List Char :=
  (l.take b).drop a

/-- Digit-run parser: the core of Rust `str::parse` for unsigned integers
(nonempty, all ASCII digits; overflow is not modelled — every numeric field
parsed here has at most six digits). -/
def parseDigits (l : List Char) : Option Nat :=
  if l ≠ [] ∧ l.all Char.isDigit then
    some (l.foldl (fun acc c => acc * 10 + (c.toNat - '0'.toNat)) 0)
  else none

/-- Rust `str::parse::<u32>`: an optional leading `+` then digits. -/
def parseU32 (l : List Char) : Option Nat :=
  match l with
  | '+' :: rest => parseDigits rest
  | _ => parseDigits l

/-- Rust `str::parse::<i32>`: an optional sign then digits. -/
def parseI32 (l : List Char) : Option Int :=
  match l with
  | '+' :: rest => (parseDigits rest).map (fun n => (n : Int))
  | '-' :: rest => (parseDigits rest).map (fun n => -(n : Int))
  | _ => (parseDigits l).map (fun n => (n : Int))

/-- Proleptic-Gregorian leap-year rule (chrono's calendar). -/
def isLeapYear (y : Int) : Bool :=
  y % 4 = 0 && (y % 100 ≠ 0 || y % 400 = 0)

/-- Days in a month of the proleptic Gregorian calendar. -/
def daysInMonth (y : Int) (m : Nat) : Nat :=
  if m = 2 then (if isLeapYear y then 29 else 28)
  else if m = 4 ∨ m = 6 ∨ m = 9 ∨ m = 11 then 30
  else 31

/-- Days from the Unix epoch to the civil date `y-m-d` (proleptic
Gregorian), the standard days-from-civil computation. -/
def daysFromCivil (y : Int) (m d : Nat) : Int :=
  let yy : Int := if m ≤ 2 then y - 1 else y
  let era : Int := Int.fdiv yy 400
  let yoe : Nat := (yy - era * 400).toNat
  let mp : Nat := (m + 9) % 12
  let doy : Nat := (153 * mp + 2) / 5 + d - 1
  let doe : Nat := yoe * 365 + yoe / 4 - yoe / 100 + doy
  era * 146097 + (doe : Int) - 719468

/-- `parse_timestamp` from `src/rust/src/tech/timestamp.rs`, producing the
UTC instant in microseconds since the epoch.  chrono's
`with_ymd_and_hms(..).single()` on a fixed offset is `None` exactly when a
calendar or clock component is out of range, and `with_nanosecond` is `None`
when the nanosecond count reaches 2·10⁹ — both are mirrored here. -/
def parseTimestamp (s : String) : Except BeadError Int :=
  let l := s.data
  if l.length < 24 then .error (.InvalidInput ("Invalid timestamp: " ++ s))
  else
    match parseI32 (slice l 0 4) with
    | none => .error (.InvalidInput "Invalid year in timestamp")
    | some year =>
    match parseU32 (slice l 4 6) with
    | none => .error (.InvalidInput "Invalid month in timestamp")
    | some month =>
    match parseU32 (slice l 6 8) with
    | none => .error (.InvalidInput "Invalid day in timestamp")
    | some day =>
    match parseU32 (slice l 9 11) with
    | none => .error (.InvalidInput "Invalid hour in timestamp")
    | some hour =>
    match parseU32 (slice l 11 13) with
    | none => .error (.InvalidInput "Invalid minute in timestamp")
    | some minute =>
    match parseU32 (slice l 13 15) with
    | none => .error (.InvalidInput "Invalid second in timestamp")
    | some second =>
    match (if l.length ≥ 21 then parseU32 (slice l 15 21) else some 0) with
    | none => .error (.InvalidInput "Invalid microsecond in timestamp")
    | some microsecond =>
    let tzres : Except BeadError Int :=
      if l.length ≥ 24 then
        let tz := l.drop 21
        let sign : Int := if tz.take 1 = ['+'] then 1 else -1
        let hours : Int := (parseI32 (slice tz 1 3)).getD 0
        let minutes : Int := if tz.length ≥ 5 then (parseI32 (slice tz 3 5)).getD 0 else 0
        let offset := sign * (hours * 3600 + minutes * 60)
        if -86400 < offset ∧ offset < 86400 then .ok offset
        else .error (.InvalidInput "Invalid timezone offset")
      else .ok 0
    match tzres with
    | .error e => .error e
    | .ok offset =>
      if 1 ≤ month ∧ month ≤ 12 ∧ hour ≤ 23 ∧ minute ≤ 59 ∧ second ≤ 59 ∧
          1 ≤ day ∧ day ≤ daysInMonth year month then
        if microsecond * 1000 < 2000000000 then
          .ok ((daysFromCivil year month day * 86400 +
                 (hour * 3600 + minute * 60 + second : Nat) - offset) * 1000000
               + microsecond)
        else .error (.InvalidInput "Invalid microseconds")
      else .error (.InvalidInput "Invalid datetime components")

theorem parseTimestamp_sample :
    parseTimestamp "20240115T120000000000+0000" = .ok 1705320000000000 := by decide

theorem parseTimestamp_malformed : (parseTimestamp "invalid").isOk = false := by decide

/-! ### Paths and the filesystem

A Rust `Path` is embedded as an absolute flag plus its list of normal
components; the filesystem is an explicit value (no symlinks, so
`fs::canonicalize` is existence-checked lexical resolution). -/

/-- Rust `str::starts_with` (character-level, faithful for ASCII). -/
def strStartsWith (s pre : String) : Bool :=
  pre.data.isPrefixOf s.data

/-- Rust `str::ends_with`. -/
def strEndsWith (s suf : String) : Bool :=
  suf.data.isSuffixOf s.data

/-- Rust byte slicing `&s[n..]` (character-level, faithful for ASCII). -/
def strDrop (s : String) (n : Nat) : String :=
  ⟨s.data.drop n⟩

/-- A Rust `Path`/`PathBuf`.  Empty and `.` components are dropped (as
`Path::components` normalization does), `..` components are kept. -/
structure RustPath where
  absolute : Bool
  comps : List String
  deriving Repr, DecidableEq

/-- `Path::new(s)` for a Unix path string. -/
def parsePath (s : String) : RustPath :=
  { absolute := strStartsWith s "/"
    comps := (splitSep '/' s.data).filterMap fun c =>
      if c = [] ∨ c = ['.'] then none else some ⟨c⟩ }

/-- `Path::join`: joining an absolute path replaces the receiver. -/
def RustPath.join (p : RustPath) (s : String) : RustPath :=
  let q := parsePath s
  if q.absolute then q else ⟨p.absolute, p.comps ++ q.comps⟩

/-- `Path::parent`: drop the last component (`none` at a root). -/
def RustPath.parent (p : RustPath) : Option RustPath :=
  match p.comps with
  | [] => none
  | _ => some ⟨p.absolute, p.comps.dropLast⟩

/-- Lexical resolution of `..` components of an absolute path: the effect
of the OS path walk on a symlink-free tree (`..` at the root stays at the
root, as on POSIX). -/
def resolveComps (l : List String) : List String :=
  l.foldl (fun acc c => if c = ".." then acc.dropLast else acc ++ [c]) []

/-- The portion of a path string after its last `/`; used to model std
`Path::file_name` (`none` for an empty final component or a trailing `.` /
`..`, which is where the std function reports no file name on the simple
paths handled here). -/
def afterLastSlash (l : List Char) : List Char :=
  (l.reverse.takeWhile (fun c => c ≠ '/')).reverse

/-- Model of std `Path::file_name` composed with `to_str`. -/
def rustFileName (path : String) : Option String :=
  let f := afterLastSlash path.data
  if f = [] ∨ f = ['.'] ∨ f = ['.', '.'] then none else some ⟨f⟩

/-- Filesystem state: the existing directories and files, both stored as
resolved absolute component lists. -/
structure FS where
  dirs : List (List String)
  files : List (List String × String)
  deriving Repr, DecidableEq

/-- Does a resolved path name an existing directory or file? -/
def FS.existsPath (fs : FS) (r : List String) : Bool :=
  decide (r ∈ fs.dirs) || fs.files.any fun f => decide (f.1 = r)

/-- `fs::create_dir_all`: the directory and all its ancestors exist
afterwards (succeeds if they already do). -/
def FS.createDirAll (fs : FS) (p : RustPath) : FS :=
  { fs with dirs := fs.dirs ++ (resolveComps p.comps).inits }

/-- `fs::canonicalize` on a symlink-free tree: lexical resolution, failing
when the resolved path does not exist. -/
def FS.canonicalize (fs : FS) (p : RustPath) : Option (List String) :=
  let r := resolveComps p.comps
  if fs.existsPath r then some r else none

/-- `Archive::extract_file` from `src/rust/src/core/archive.rs`.  `entries`
is the container directory (entry name → content); the result is the
filesystem after the call together with the written path or the error.
I/O primitives are assumed to succeed; `io::copy` is the recorded file
write. -/
def extract_file (entries : List (String × String)) (fs : FS)
    (archive_path : String) (dest_dir : RustPath) :
    FS × Except BeadError (List String) :=
  if rustContainsStr archive_path ".." then
    (fs, .error (.InvalidArchive "Path traversal detected in archive path"))
  else
    match entries.lookup archive_path with
    | none => (fs, .error (.InvalidArchive ("File not found in archive: " ++ archive_path)))
    | some content =>
      match rustFileName archive_path with
      | none => (fs, .error (.InvalidArchive "Invalid file path in archive"))
      | some fname =>
        let dest_path := dest_dir.join fname
        let step1 : FS × Option (List String) :=
          match fs.canonicalize dest_path with
          | some r => (fs, some r)
          | none =>
            match dest_path.parent with
            | some par =>
              let fsA := fs.createDirAll par
              match fsA.canonicalize par with
              | some rp => (fsA, some (rp ++ [fname]))
              | none => (fsA, none)
            | none => (fs, some (resolveComps dest_path.comps))
        match step1 with
        | (fs1, none) => (fs1, .error (.IoError "canonicalize failed"))
        | (fs1, some destR) =>
          let step2 : FS × Option (List String) :=
            match fs1.canonicalize dest_dir with
            | some r => (fs1, some r)
            | none =>
              let fsB := fs1.createDirAll dest_dir
              (fsB, fsB.canonicalize dest_dir)
          match step2 with
          | (fs2, none) => (fs2, .error (.IoError "canonicalize failed"))
          | (fs2, some ddR) =>
            if decide (ddR <+: destR) then
              ({ fs2 with files := fs2.files ++ [(destR, content)] }, .ok destR)
            else
              (fs2, .error (.InvalidArchive "Path traversal detected"))

/-- `Archive::extract_dir` from `src/rust/src/core/archive.rs`: normalize
the prefix to end in `/`, select the non-directory entries under it, strip
the prefix and join the remainder onto `dest_dir`.  The function returns
the sequence of destination paths handed to `File::create`, in archive
order; the OS resolves each to `resolveComps (path.comps)` when writing.
No `..` or containment check is performed. -/
def extract_dir (entries : List (String × String)) (dir_pre : String)
    (dest_dir : RustPath) : List RustPath :=
  let pre := if strEndsWith dir_pre "/" then dir_pre else dir_pre ++ "/"
  let names := entries.filterMap fun e =>
    if strStartsWith e.1 pre && !strEndsWith e.1 "/" then some e.1 else none
  names.map fun n => dest_dir.join (strDrop n pre.length)

/-- `Archive::unpack_data_to` from `src/rust/src/core/archive.rs`:
`extract_dir` with the fixed prefix `data/`. -/
def unpack_data_to (entries : List (String × String)) (dest_dir : RustPath) :
    List RustPath :=
  extract_dir entries "data/" dest_dir

/-- `Archive::unpack_code_to` from `src/rust/src/core/archive.rs`: for
every entry whose name starts with `code/`, join the stripped remainder
onto the target directory and write the file there.  No `..` or
containment check is performed. -/
def unpack_code_to (entries : List (String × String)) (target_dir : RustPath) :
    List RustPath :=
  entries.filterMap fun e =>
    if strStartsWith e.1 "code/" then some (target_dir.join (strDrop e.1 5))
    else none

/-- C1 (code-bug evaluation): the container entry `data/../evil.txt`
against destination `/tmp/dest` makes `extract_dir "data/"` (and hence
`unpack_data_to`) write `/tmp/evil.txt`, outside `/tmp/dest`; likewise
`unpack_code_to` writes `code/../evil.rs` to `/tmp/evil.rs`.  Neither
function performs a `..` or containment check. -/
theorem c1_extract_dir_escape :
    ((unpack_data_to [("data/../evil.txt", "x")] ⟨true, ["tmp", "dest"]⟩).map
        (fun p => resolveComps p.comps) = [["tmp", "evil.txt"]] ∧
      ¬ (["tmp", "dest"] <+: ["tmp", "evil.txt"])) ∧
      (unpack_code_to [("code/../evil.rs", "y")] ⟨true, ["tmp", "dest"]⟩).map
          (fun p => resolveComps p.comps) = [["tmp", "evil.rs"]] ∧
        ¬ (["tmp", "dest"] <+: ["tmp", "evil.rs"]) := by
  refine ⟨⟨by decide, by decide⟩, by decide, by decide⟩

/-- C10: `extract_file` rejects any requested path containing `..` anywhere
as a substring, with an `InvalidArchive` error and before any filesystem
write (the filesystem is returned unchanged); and this is strictly stronger
than a `..`-segment check, witnessed by `a..b.txt`, which has no `..`
segment yet is rejected. -/
theorem c10_extract_file_rejects_dotdot_substring :
    (∀ (entries : List (String × String)) (fs : FS) (p : String) (dest : RustPath),
        rustContainsStr p ".." = true →
          extract_file entries fs p dest =
            (fs, .error (.InvalidArchive "Path traversal detected in archive path"))) ∧
      rustContainsStr "a..b.txt" ".." = true ∧ hasDotDotSegment "a..b.txt" = false := by
  refine ⟨?_, by decide, by decide⟩
  intro entries fs p dest h
  simp [extract_file, h]

/-- C10 witness: the guard fires on the concrete path `a..b.txt`. -/
theorem c10_extract_file_rejects_dotdot_substring_witness :
    extract_file [] ⟨[], []⟩ "a..b.txt" ⟨true, ["tmp"]⟩ =
      (⟨[], []⟩, .error (.InvalidArchive "Path traversal detected in archive path")) :=
  c10_extract_file_rejects_dotdot_substring.1 [] ⟨[], []⟩ "a..b.txt" ⟨true, ["tmp"]⟩
    (by decide)

/-! ### Archives (`src/rust/src/core/archive.rs`) -/

/-- A value held in an archive's side-car cache mapping (the parsed JSON
values the source's cache lookups distinguish: strings, values parsable as
`BeadMeta`, and everything else). -/
inductive CacheVal where
  | strVal (s : String)
  | metaVal (m : BeadMeta)
  | otherVal
  deriving Repr, DecidableEq

/-- The contents of one container file: the parsed `meta/bead` metadata
(`none` when the entry is absent or unparsable — JSON mechanics are an
external collaborator) and the raw entry listing used by extraction. -/
structure ZipData where
  beadMeta : Option BeadMeta
  entries : List (String × String)
  deriving Repr, DecidableEq

/-- The `Archive` struct: path, owning box name, the name derived from the
filename, the loaded side-car cache, and the container contents (the
`OnceCell` lazy handle always yields the same `ZipData`, so it is embedded
by value). -/
structure ArchiveModel where
  path : String
  box_name : String
  name : BeadName
  cache : List (String × CacheVal)
  zip : ZipData
  deriving Repr, DecidableEq

/-- `Archive::meta`: prefer a cache entry under `"meta"` that parses as
`BeadMeta`, else read `meta/bead` from the container.  The `OnceCell`
memoization returns this same value on every call. -/
def ArchiveModel.metaResult (a : ArchiveModel) : Except BeadError BeadMeta :=
  match a.cache.lookup "meta" with
  | some (.metaVal m) => .ok m
  | _ =>
    match a.zip.beadMeta with
    | some m => .ok m
    | none => .error (.JsonError "meta/bead missing or unparsable")

/-- `Archive::content_id`: the cache entry under `"content_id"` when it is
a string, else the fixed placeholder `dummy_content_id`.  (`meta()` is
never consulted.) -/
def ArchiveModel.content_id (a : ArchiveModel) : ContentId :=
  match a.cache.lookup "content_id" with
  | some (.strVal s) => ⟨s⟩
  | _ => ⟨"dummy_content_id"⟩

/-- `Archive::kind`: the kind field of `meta()`. -/
def ArchiveModel.kindResult (a : ArchiveModel) : Except BeadError String :=
  a.metaResult.map (·.kind)

/-- `Archive::inputs`: the input specs of `meta()`, empty on error. -/
def ArchiveModel.inputsList (a : ArchiveModel) : List InputSpec :=
  match a.metaResult with
  | .ok m => m.inputs.map (·.2)
  | .error _ => []

/-- `Archive::freeze_time`: parse the metadata freeze time, falling back to
the current instant (`now`, passed explicitly) when the metadata or its
timestamp cannot be obtained. -/
def ArchiveModel.freeze_time (a : ArchiveModel) (now : Int) : Int :=
  match a.metaResult with
  | .ok m =>
    match m.freeze_time with
    | some t =>
      match parseTimestamp t with
      | .ok v => v
      | .error _ => now
    | none => now
  | .error _ => now

/-- `Archive::parse_name_from_path`: take the file name, strip a `.zip`
suffix, and keep what precedes the first `_` (`split('_').next()`). -/
def parse_name_from_path (path : String) : Except BeadError BeadName :=
  match rustFileName path with
  | none => .error (.InvalidArchive "Invalid archive filename")
  | some filename =>
    let stem : List Char :=
      if strEndsWith filename ".zip" then filename.data.take (filename.data.length - 4)
      else filename.data
    BeadName.new ⟨stem.takeWhile (fun c => c ≠ '_')⟩

/-- `Path::with_extension("xmeta")`: replace the extension after the last
`.` of the file name (a leading-dot-only name has no extension), or append
one. -/
def withExtensionXmeta (path : String) : String :=
  let fn := afterLastSlash path.data
  let pre := path.data.take (path.data.length - fn.length)
  let ext := fn.reverse.takeWhile (fun c => c ≠ '.')
  let stem :=
    if fn.contains '.' then
      if ext.length + 1 = fn.length ∧ fn.take 1 = ['.'] then fn
      else fn.take (fn.length - ext.length - 1)
    else fn
  ⟨pre ++ stem ++ ".xmeta".data⟩

/-- `Archive::open`: fail when the file is absent, derive the name from the
filename, and load the side-car cache when present.  `zips` are the
container files on disk (path → contents) and `cacheFiles` the side-car
cache files (path → parsed mapping; an unparsable cache file also yields
the empty default, so it is represented as an absent entry). -/
def Archive.open (zips : List (String × ZipData))
    (cacheFiles : List (String × List (String × CacheVal)))
    (path : String) (box_name : String) : Except BeadError ArchiveModel :=
  match zips.lookup path with
  | none => .error (.InvalidArchive ("Archive does not exist: " ++ path))
  | some z =>
    match parse_name_from_path path with
    | .error e => .error e
    | .ok name =>
      let cache := (cacheFiles.lookup (withExtensionXmeta path)).getD []
      .ok ⟨path, box_name, name, cache, z⟩

/-- The `Workspace` struct (`src/rust/src/core/workspace.rs`): directory
path (as components), live metadata, input-name map. -/
structure WorkspaceModel where
  directory : List String
  meta : BeadMeta
  input_map : List (String × String)
  deriving Repr, DecidableEq

/-- `Workspace::name`: the final component of the workspace directory. -/
def WorkspaceModel.name (w : WorkspaceModel) : Option String :=
  w.directory.getLast?

/-- `Archive::create`: fail when the file exists; otherwise write the
container (metadata with `freeze_time`/`freeze_name` filled in; code and
data are not yet packed — see the TODO in the source), then build the
in-memory archive after validating the name.  Returns the container files
after the call and the result; note the source writes the file before the
name validation, so the file exists even when the name is invalid. -/
def Archive.create (zips : List (String × ZipData)) (path : String)
    (workspace : WorkspaceModel) (freeze_time : String) (_comment : String) :
    List (String × ZipData) × Except BeadError ArchiveModel :=
  if (zips.lookup path).isSome then
    (zips, .error (.AlreadyExists ("Archive already exists: " ++ path)))
  else
    let wsname := workspace.name.getD "unnamed"
    let meta1 : BeadMeta := { workspace.meta with
                              freeze_time := some freeze_time,
                              freeze_name := some wsname }
    let z : ZipData := { beadMeta := some meta1, entries := [] }
    match BeadName.new wsname with
    | .error e => (zips ++ [(path, z)], .error e)
    | .ok nm => (zips ++ [(path, z)], .ok ⟨path, "", nm, [], z⟩)

/-- Freezing a workspace at a timestamp into the conventional
`<name>_<freeze_time>.zip` file (the filename convention of `Box::store`
and of the archive filename contract), then opening that file with
`Archive::open` on the resulting filesystem. -/
def freezeThenOpen (workspace : WorkspaceModel) (freeze_time : String) :
    Except BeadError ArchiveModel :=
  let filename := workspace.name.getD "unnamed" ++ "_" ++ freeze_time ++ ".zip"
  match Archive.create [] filename workspace freeze_time "" with
  | (zips1, .ok _) => Archive.open zips1 [] filename "box"
  | (_, .error e) => .error e

/-- C2 counterexample: the valid bead name `a_b` (an underscore is allowed
by `BeadName::is_valid`) does not round-trip: freezing a workspace named
`a_b` and reopening the file yields the name `a`, because
`parse_name_from_path` keeps only what precedes the first `_`. -/
theorem c2_roundtrip_underscore_counterexample :
    BeadName.is_valid "a_b" = true ∧
      (freezeThenOpen ⟨["home", "a_b"], BeadMeta.new_workspace "k", []⟩
          "20240115T120000000000+0000").map (fun a => a.name.str) = .ok "a" ∧
      "a" ≠ "a_b" := by
  refine ⟨by decide, by decide, by decide⟩

theorem string_mk_data (s : String) : String.mk s.data = s := rfl

theorem takeWhile_append_stop (p : Char → Bool) (l1 : List Char) (x : Char)
    (l2 : List Char) (h1 : ∀ c ∈ l1, p c = true) (hx : p x = false) :
    (l1 ++ x :: l2).takeWhile p = l1 := by
  induction l1 with
  | nil => simp [List.takeWhile_cons, hx]
  | cons a t ih =>
    have ha : p a = true := h1 a (by simp)
    rw [List.cons_append, List.takeWhile_cons, ha, if_pos rfl,
      ih fun c hc => h1 c (by simp [hc])]

theorem afterLastSlash_eq_self (l : List Char) (h : '/' ∉ l) :
    afterLastSlash l = l := by
  unfold afterLastSlash
  have hself : l.reverse.takeWhile (fun c => decide (c ≠ '/')) = l.reverse := by
    apply List.takeWhile_eq_self_iff.mpr
    intro c hc
    simp only [decide_eq_true_eq]
    intro hc'
    exact h (by rw [← hc']; exact List.mem_reverse.mp hc)
  rw [hself, List.reverse_reverse]

/-- C2 (amended): freezing a workspace of kind `K` named `N` at timestamp
`T` into the conventional `<N>_<T>.zip` file and reopening it yields kind
`K`, name `N` and freeze time `Some T`, provided the valid name `N`
contains no underscore (and `T`, a timestamp, contains no `/`).  The
original claim fails for names containing `_`
(see the counterexample): `name()` is then only the prefix before the
first `_`. -/
theorem c2_roundtrip_after_freeze (ws : WorkspaceModel) (N K T : String)
    (hname : ws.name = some N) (hkind : ws.meta.kind = K)
    (hvalid : BeadName.is_valid N = true)
    (hnous : rustContainsChar N '_' = false)
    (hT : rustContainsChar T '/' = false) :
    ∃ a, freezeThenOpen ws T = .ok a ∧
      a.kindResult = .ok K ∧ a.name.str = N ∧
      a.metaResult.map (·.freeze_time) = .ok (some T) := by
  have hvalid' := (beadName_is_valid_iff N).mp hvalid
  obtain ⟨hne, hdot, hdots, hnoslash, hnodd⟩ := hvalid'
  have hTslash : '/' ∉ T.data := fun hm => by
    rw [(rustContainsChar_iff T '/').mpr hm] at hT; cases hT
  have hNus : '_' ∉ N.data := fun hm => by
    rw [(rustContainsChar_iff N '_').mpr hm] at hnous; cases hnous
  -- the stored filename and its character list
  set filename := N ++ "_" ++ T ++ ".zip" with hfn
  have hdata : filename.data = N.data ++ '_' :: (T.data ++ ['.', 'z', 'i', 'p']) := by
    simp [hfn, String.data_append]
  have hnoslashF : '/' ∉ filename.data := by
    rw [hdata]
    intro hm
    rcases List.mem_append.mp hm with h1 | h2
    · exact hnoslash h1
    · rcases h2 with _ | ⟨_, h3⟩
      · rcases List.mem_append.mp h3 with h4 | h5
        · exact hTslash h4
        · simp at h5
  -- file name extraction keeps the whole filename
  have hfnlen : 5 ≤ filename.data.length := by
    rw [hdata]
    simp [List.length_append]
    omega
  have hrfn : rustFileName filename = some filename := by
    unfold rustFileName
    rw [afterLastSlash_eq_self _ hnoslashF]
    have h1 : filename.data ≠ [] := by
      intro h; rw [h] at hfnlen; simp at hfnlen
    have h2 : filename.data ≠ ['.'] := by
      intro h; rw [h] at hfnlen; simp at hfnlen
    have h3 : filename.data ≠ ['.', '.'] := by
      intro h; rw [h] at hfnlen; simp at hfnlen
    simp [h1, h2, h3, string_mk_data]
  -- name parsing recovers N
  have hzip : strEndsWith filename ".zip" = true := by
    unfold strEndsWith
    rw [List.isSuffixOf_iff_suffix]
    exact ⟨N.data ++ '_' :: T.data, by rw [hdata]; simp⟩
  have hstem : filename.data.take (filename.data.length - 4) =
      N.data ++ '_' :: T.data := by
    have h4 : filename.data.length - 4 = (N.data ++ '_' :: T.data).length := by
      rw [hdata]; simp [List.length_append]; omega
    rw [h4, hdata]
    have : N.data ++ '_' :: (T.data ++ ['.', 'z', 'i', 'p']) =
        (N.data ++ '_' :: T.data) ++ ['.', 'z', 'i', 'p'] := by simp
    rw [this, List.take_left]
  have htw : (N.data ++ '_' :: T.data).takeWhile (fun c => c ≠ '_') = N.data := by
    apply takeWhile_append_stop
    · intro c hc
      simp only [decide_eq_true_eq]
      intro h
      rw [h] at hc
      exact hNus hc
    · simp
  have hparse : parse_name_from_path filename = .ok ⟨N⟩ := by
    unfold parse_name_from_path
    rw [hrfn]
    simp only [hzip, if_true, hstem, htw, string_mk_data]
    unfold BeadName.new
    rw [hvalid]
    rfl
  -- run create, then open
  refine ⟨⟨filename, "box", ⟨N⟩, [],
    ⟨some { ws.meta with freeze_time := some T, freeze_name := some N }, []⟩⟩, ?_, ?_, ?_, ?_⟩
  · unfold freezeThenOpen Archive.create
    rw [hname]
    simp only [Option.getD_some, List.lookup_nil, Option.isSome_none, Bool.false_eq_true,
      if_false]
    unfold BeadName.new
    rw [hvalid]
    simp only [if_pos rfl]
    unfold Archive.open
    simp only [List.lookup, List.nil_append, beq_self_eq_true]
    rw [hparse]
    simp [List.lookup_nil]
  · simp [ArchiveModel.kindResult, ArchiveModel.metaResult, Except.map, hkind]
  · rfl
  · simp [ArchiveModel.metaResult, Except.map]

/-- C2 witness: the round-trip at the concrete workspace `w` of kind `k`
frozen at `20240115T120000000000+0000`. -/
theorem c2_roundtrip_after_freeze_witness :
    ∃ a, freezeThenOpen ⟨["home", "w"], BeadMeta.new_workspace "k", []⟩
        "20240115T120000000000+0000" = .ok a ∧
      a.kindResult = .ok "k" ∧ a.name.str = "w" ∧
      a.metaResult.map (·.freeze_time) = .ok (some "20240115T120000000000+0000") :=
  c2_roundtrip_after_freeze ⟨["home", "w"], BeadMeta.new_workspace "k", []⟩
    "w" "k" "20240115T120000000000+0000" (by decide) (by decide) (by decide)
    (by decide) (by decide)

/-- C4 counterexample: two archives with the same `meta()` result but
different `content_id()` — the content id reported by the second comes from
its side-car cache, the first reports the placeholder; so `content_id()` is
not derived from the metadata returned by `meta()`. -/
theorem c4_content_id_not_from_meta_counterexample :
    (ArchiveModel.metaResult
        ⟨"p.zip", "b", ⟨"p"⟩, [], ⟨some (BeadMeta.new_workspace "k"), []⟩⟩ =
      ArchiveModel.metaResult
        ⟨"p.zip", "b", ⟨"p"⟩, [("content_id", .strVal "abc123")],
          ⟨some (BeadMeta.new_workspace "k"), []⟩⟩) ∧
      ArchiveModel.content_id
          ⟨"p.zip", "b", ⟨"p"⟩, [], ⟨some (BeadMeta.new_workspace "k"), []⟩⟩ ≠
        ArchiveModel.content_id
          ⟨"p.zip", "b", ⟨"p"⟩, [("content_id", .strVal "abc123")],
            ⟨some (BeadMeta.new_workspace "k"), []⟩⟩ := by
  refine ⟨by decide, by decide⟩

/-- C4 (amended): `content_id()` depends only on the side-car cache (the
`content_id` entry, else the fixed placeholder), and it is `kind()`,
`inputs()` and `freeze_time()` that are derived from the memoized
metadata returned by `meta()`. -/
theorem c4_content_id_cache_only_meta_derived :
    (∀ a b : ArchiveModel, a.cache = b.cache → a.content_id = b.content_id) ∧
      (∀ a b : ArchiveModel, a.metaResult = b.metaResult →
        a.kindResult = b.kindResult ∧ a.inputsList = b.inputsList ∧
          ∀ now : Int, a.freeze_time now = b.freeze_time now) := by
  constructor
  · intro a b h
    unfold ArchiveModel.content_id
    rw [h]
  · intro a b h
    refine ⟨?_, ?_, ?_⟩
    · unfold ArchiveModel.kindResult
      rw [h]
    · unfold ArchiveModel.inputsList
      rw [h]
    · intro now
      unfold ArchiveModel.freeze_time
      rw [h]

/-- C4 witness: the dependency facts applied at concrete archives — one
with a cached content id and differing container metadata, one without. -/
theorem c4_content_id_cache_only_meta_derived_witness :
    ArchiveModel.content_id
        ⟨"p.zip", "b", ⟨"p"⟩, [("content_id", .strVal "abc123")],
          ⟨some (BeadMeta.new_workspace "k"), []⟩⟩ =
      ArchiveModel.content_id
        ⟨"q.zip", "c", ⟨"q"⟩, [("content_id", .strVal "abc123")],
          ⟨none, []⟩⟩ ∧
      ArchiveModel.kindResult ⟨"p.zip", "b", ⟨"p"⟩, [],
          ⟨some (BeadMeta.new_workspace "k"), []⟩⟩ =
        ArchiveModel.kindResult ⟨"q.zip", "c", ⟨"q"⟩, [],
          ⟨some (BeadMeta.new_workspace "k"), []⟩⟩ :=
  ⟨c4_content_id_cache_only_meta_derived.1
      ⟨"p.zip", "b", ⟨"p"⟩, [("content_id", .strVal "abc123")],
        ⟨some (BeadMeta.new_workspace "k"), []⟩⟩
      ⟨"q.zip", "c", ⟨"q"⟩, [("content_id", .strVal "abc123")], ⟨none, []⟩⟩ rfl,
    (c4_content_id_cache_only_meta_derived.2
      ⟨"p.zip", "b", ⟨"p"⟩, [], ⟨some (BeadMeta.new_workspace "k"), []⟩⟩
      ⟨"q.zip", "c", ⟨"q"⟩, [], ⟨some (BeadMeta.new_workspace "k"), []⟩⟩ rfl).1⟩

/-- C6 counterexample: opening a path that names no existing file fails
with `InvalidArchive` ("Archive does not exist"), which is not one of the
NotFound error kinds (`BeadNotFound`/`BoxNotFound`) the claim requires. -/
theorem c6_open_missing_invalidarchive_counterexample :
    Archive.open [] [] "missing.zip" "box" =
        .error (.InvalidArchive "Archive does not exist: missing.zip") ∧
      (BeadError.InvalidArchive "Archive does not exist: missing.zip").isNotFoundKind
        = false := by
  refine ⟨by decide, by decide⟩

/-- C6 (amended): for every filesystem and path naming no existing
container file, `Archive::open` fails with the `InvalidArchive` error kind
(message "Archive does not exist: …") — a distinguishable kind, but not a
NotFound one. -/
theorem c6_open_missing_fails_invalid_archive
    (zips : List (String × ZipData))
    (cacheFiles : List (String × List (String × CacheVal)))
    (path box_name : String) (h : zips.lookup path = none) :
    Archive.open zips cacheFiles path box_name =
      .error (.InvalidArchive ("Archive does not exist: " ++ path)) := by
  unfold Archive.open
  rw [h]

/-- C6 witness: opening `absent.zip` on an empty filesystem. -/
theorem c6_open_missing_fails_invalid_archive_witness :
    Archive.open [] [] "absent.zip" "box" =
      .error (.InvalidArchive ("Archive does not exist: " ++ "absent.zip")) :=
  c6_open_missing_fails_invalid_archive [] [] "absent.zip" "box" rfl

/-! ### Workspace input lifecycle (`src/rust/src/core/workspace.rs`) -/

/-- The state of a workspace seen by the input lifecycle: the declared
inputs of the live metadata and the slot directories existing under
`input/`, each with the files extracted into it (relative path → content).
`is_loaded` is directory existence, so a loaded slot is exactly a present
entry.  The permission narrowing/widening steps have no observable effect
on these operations' results and are not tracked. -/
structure WsState where
  inputs : List (String × InputSpec)
  slots : List (String × List (String × String))
  deriving Repr, DecidableEq

/-- `Workspace::has_input`: the input is declared in the metadata. -/
def WsState.has_input (s : WsState) (name : String) : Bool :=
  (s.inputs.lookup name).isSome

/-- `Workspace::is_loaded`: the slot directory exists under `input/`. -/
def WsState.is_loaded (s : WsState) (name : String) : Bool :=
  (s.slots.lookup name).isSome

/-- The files `extract_dir("data/", slot_dir)` materializes inside a slot:
the non-directory `data/` entries with the prefix stripped.  (An entry
whose stripped remainder escapes the slot directory is the subject of C1;
such writes are attributed to the slot here, which is exact for archives
whose `data/` entries stay in place.) -/
def dataEntriesOf (entries : List (String × String)) : List (String × String) :=
  entries.filterMap fun e =>
    if strStartsWith e.1 "data/" && !strEndsWith e.1 "/" then
      some (strDrop e.1 5, e.2)
    else none

/-- `Workspace::load_input`: error if the input is undeclared, a no-op if
the slot is already loaded, else create the slot directory and extract the
archive's `data/` tree into it. -/
def load_input (s : WsState) (name : String)
    (archive : List (String × String)) : Except BeadError WsState :=
  if s.has_input name = false then
    .error (.InvalidInput ("Input '" ++ name ++ "' does not exist"))
  else if s.is_loaded name = true then
    .ok s
  else
    .ok { s with slots := s.slots ++ [(name, dataEntriesOf archive)] }

/-- The loop body of `Workspace::load_all_inputs` over the snapshot of the
declared inputs: for each declared input, load from `archives.first()`
when any archive was supplied, else record a failure. -/
def loadAllGo (archives : List (List (String × String))) :
    WsState → List (String × InputSpec) → WsState × List (Except BeadError String)
  | s, [] => (s, [])
  | s, (name, _) :: rest =>
    match archives.head? with
    | some archive =>
      match load_input s name archive with
      | .ok s1 =>
        let r := loadAllGo archives s1 rest
        (r.1, .ok name :: r.2)
      | .error e =>
        let r := loadAllGo archives s rest
        (r.1, .error e :: r.2)
    | none =>
      let r := loadAllGo archives s rest
      (r.1, .error (.InvalidInput ("No archive found for input '" ++ name ++ "'")) :: r.2)

/-- `Workspace::load_all_inputs`: iterate over a clone of the declared
inputs, producing one outcome each. -/
def load_all_inputs (s : WsState) (archives : List (List (String × String))) :
    WsState × List (Except BeadError String) :=
  loadAllGo archives s s.inputs

theorem lookup_append_right {β : Type} (l : List (String × β)) (k : String)
    (v : β) (h : l.lookup k = none) : (l ++ [(k, v)]).lookup k = some v := by
  induction l with
  | nil => simp [List.lookup]
  | cons a t ih =>
    rw [List.lookup] at h
    rcases hk : (k == a.1) with _ | _
    · rw [hk] at h
      simp only [List.cons_append, List.lookup, hk]
      exact ih h
    · rw [hk] at h
      simp at h

/-- C7: a second `load_input` on a slot the first call loaded succeeds and
is a no-op — it returns the workspace state unchanged, so the slot's
on-disk content after the second call is identical to the content after
the first. -/
theorem c7_load_input_idempotent (s : WsState) (name : String)
    (archive : List (String × String)) (s1 : WsState)
    (h : load_input s name archive = .ok s1) :
    load_input s1 name archive = .ok s1 := by
  unfold load_input at h ⊢
  rcases hh : s.has_input name with _ | _
  · rw [hh] at h; simp at h
  · rw [hh] at h
    simp only [Bool.true_eq_false, if_false] at h
    rcases hl : s.is_loaded name with _ | _
    · rw [hl] at h
      simp only [Bool.false_eq_true, if_false, Except.ok.injEq] at h
      subst h
      have hinp : WsState.has_input
          { s with slots := s.slots ++ [(name, dataEntriesOf archive)] } name = true := by
        unfold WsState.has_input at hh ⊢
        exact hh
      have hld : WsState.is_loaded
          { s with slots := s.slots ++ [(name, dataEntriesOf archive)] } name = true := by
        unfold WsState.is_loaded at hl ⊢
        simp only
        rw [lookup_append_right]
        · rfl
        · rcases hx : s.slots.lookup name with _ | _
          · rfl
          · rw [hx] at hl; simp at hl
      rw [hinp, hld]
      simp
    · rw [hl] at h
      simp only [if_true, Except.ok.injEq] at h
      subst h
      rw [hh, hl]
      simp

/-- C7 witness: loading the declared input `i` twice from a concrete
archive; the second call returns the state of the first unchanged. -/
theorem c7_load_input_idempotent_witness :
    load_input
        ⟨[("i", ⟨"k", "c", "20240115T120000000000+0000"⟩)],
          [("i", [("data.txt", "test data content")])]⟩
        "i" [("data/data.txt", "test data content")] =
      .ok ⟨[("i", ⟨"k", "c", "20240115T120000000000+0000"⟩)],
        [("i", [("data.txt", "test data content")])]⟩ :=
  c7_load_input_idempotent
    ⟨[("i", ⟨"k", "c", "20240115T120000000000+0000"⟩)], []⟩ "i"
    [("data/data.txt", "test data content")]
    ⟨[("i", ⟨"k", "c", "20240115T120000000000+0000"⟩)],
      [("i", [("data.txt", "test data content")])]⟩
    (by decide)

/-- C3 (code-bug evaluation): with three declared inputs and a single
supplied archive, `load_all_inputs` reports one outcome per declared input
but loads *every* input from the first archive, so all three succeed —
whereas positional matching (the claim, and the expectation of the
repository's own `test_load_all_inputs_partial_failure`) would make the
second and third input fail for lack of a matching archive. -/
theorem c3_load_all_inputs_first_archive_eval :
    (load_all_inputs
        ⟨[("input1", ⟨"kind1", "content1", "20240111T120000000000+0000"⟩),
          ("input2", ⟨"kind2", "content2", "20240112T120000000000+0000"⟩),
          ("input3", ⟨"kind3", "content3", "20240113T120000000000+0000"⟩)], []⟩
        [[("data/data.txt", "test data content")]]).2 =
      [.ok "input1", .ok "input2", .ok "input3"] := by
  decide

/-! ### Boxes (`src/rust/src/core/box_store.rs`) -/

/-- One file inside a box directory: its file name, container contents and
side-car cache (what `Archive::open` would read for it). -/
structure BoxFile where
  filename : String
  zip : ZipData
  cache : List (String × CacheVal)
  deriving Repr, DecidableEq

/-- A `Box`: its name and the directory contents at scan time (every query
re-scans the directory, so the contents are part of the box value handed to
each query in this embedding). -/
structure BoxModel where
  name : String
  files : List BoxFile
  deriving Repr, DecidableEq

/-- The glob pattern `<name>_*.zip` applied to a box file name (box file
names contain no `/`; `*` matches any, possibly empty, run). -/
def globNameMatch (nm filename : String) : Bool :=
  strStartsWith filename (nm ++ "_") && strEndsWith filename ".zip" &&
    decide (nm.length + 5 ≤ filename.length)

/-- `Box::find_by_name`: glob `location/<name>_*.zip` and opportunistically
open each match as an archive, silently skipping files that fail to open. -/
def find_by_name (b : BoxModel) (nm : String) : List ArchiveModel :=
  b.files.filterMap fun f =>
    if globNameMatch nm f.filename then
      match parse_name_from_path f.filename with
      | .ok bn => some ⟨f.filename, b.name, bn, f.cache, f.zip⟩
      | .error _ => none
    else none

/-- `Box::find_by_name_before`: parse the cutoff (propagating a parse
failure), then keep the name matches with `freeze_time() <= cutoff`.
`now` is the instant `Utc::now` would return during the scan (the
`freeze_time` fallback), passed explicitly. -/
def find_by_name_before (b : BoxModel) (nm ts : String) (now : Int) :
    Except BeadError (List ArchiveModel) :=
  match parseTimestamp ts with
  | .error e => .error e
  | .ok cutoff =>
    .ok ((find_by_name b nm).filter fun a => decide (a.freeze_time now ≤ cutoff))

/-- `Box::find_by_name_after`: as `find_by_name_before` with a strict `>`
comparison. -/
def find_by_name_after (b : BoxModel) (nm ts : String) (now : Int) :
    Except BeadError (List ArchiveModel) :=
  match parseTimestamp ts with
  | .error e => .error e
  | .ok cutoff =>
    .ok ((find_by_name b nm).filter fun a => decide (cutoff < a.freeze_time now))

/-- C9: when the cutoff string parses, `find_by_name_before` returns
exactly the name matches whose freeze time is `≤` the cutoff and
`find_by_name_after` exactly those whose freeze time is strictly `>` the
cutoff (stated both as the result equation and as a membership
characterization); when the cutoff string does not parse, both fail. -/
theorem c9_find_by_name_before_after :
    (∀ (b : BoxModel) (nm ts : String) (now cutoff : Int),
        parseTimestamp ts = .ok cutoff →
          (find_by_name_before b nm ts now =
              .ok ((find_by_name b nm).filter fun a =>
                decide (a.freeze_time now ≤ cutoff)) ∧
            ∀ a, a ∈ (find_by_name b nm).filter
                (fun a => decide (a.freeze_time now ≤ cutoff)) ↔
              a ∈ find_by_name b nm ∧ a.freeze_time now ≤ cutoff) ∧
          (find_by_name_after b nm ts now =
              .ok ((find_by_name b nm).filter fun a =>
                decide (cutoff < a.freeze_time now)) ∧
            ∀ a, a ∈ (find_by_name b nm).filter
                (fun a => decide (cutoff < a.freeze_time now)) ↔
              a ∈ find_by_name b nm ∧ cutoff < a.freeze_time now)) ∧
      (∀ (b : BoxModel) (nm ts : String) (now : Int) (e : BeadError),
        parseTimestamp ts = .error e →
          find_by_name_before b nm ts now = .error e ∧
            find_by_name_after b nm ts now = .error e) := by
  constructor
  · intro b nm ts now cutoff h
    refine ⟨⟨?_, ?_⟩, ?_, ?_⟩
    · unfold find_by_name_before
      rw [h]
    · intro a
      rw [List.mem_filter]
      simp
    · unfold find_by_name_after
      rw [h]
    · intro a
      rw [List.mem_filter]
      simp
  · intro b nm ts now e h
    constructor
    · unfold find_by_name_before
      rw [h]
    · unfold find_by_name_after
      rw [h]

/-- A concrete box with three `test-bead` archives frozen on three
consecutive days (the scenario of the repository's
`test_box_find_with_time_constraint`). -/
def c9testBox : BoxModel :=
  ⟨"test-box",
    [⟨"test-bead_20240115T120000000000+0000.zip",
       ⟨some (BeadMeta.new_frozen "test-kind" ⟨"test-bead"⟩
         "20240115T120000000000+0000"), []⟩, []⟩,
     ⟨"test-bead_20240116T120000000000+0000.zip",
       ⟨some (BeadMeta.new_frozen "test-kind" ⟨"test-bead"⟩
         "20240116T120000000000+0000"), []⟩, []⟩,
     ⟨"test-bead_20240117T120000000000+0000.zip",
       ⟨some (BeadMeta.new_frozen "test-kind" ⟨"test-bead"⟩
         "20240117T120000000000+0000"), []⟩, []⟩]⟩

/-- C9 witness: against `c9testBox` with cutoff `20240116T180000…`, the
"before" query returns the first two archives and the "after" query the
third. -/
theorem c9_find_by_name_before_after_witness :
    find_by_name_before c9testBox "test-bead" "20240116T180000000000+0000" 0 =
        .ok ((find_by_name c9testBox "test-bead").filter fun a =>
          decide (a.freeze_time 0 ≤ 1705428000000000)) ∧
      find_by_name_after c9testBox "test-bead" "20240116T180000000000+0000" 0 =
        .ok ((find_by_name c9testBox "test-bead").filter fun a =>
          decide (1705428000000000 < a.freeze_time 0)) ∧
      ((find_by_name c9testBox "test-bead").filter fun a =>
          decide (a.freeze_time 0 ≤ 1705428000000000)).length = 2 ∧
      ((find_by_name c9testBox "test-bead").filter fun a =>
          decide (1705428000000000 < a.freeze_time 0)).length = 1 := by
  have h := c9_find_by_name_before_after.1 c9testBox "test-bead"
    "20240116T180000000000+0000" 0 1705428000000000 (by decide)
  exact ⟨h.1.1, h.2.1, by decide, by decide⟩

end Bead
